import Mathlib

/-!
# ThreadPool (code/pool/threadpool.h)

A shallow embedding of the fixed-size worker thread pool.

* `Pool` is the shared record `struct Pool` (`isClosed`, `tasks`); the mutex and the
  condition variable are not data: every region of the source that runs with `mtx`
  held is one atomic step of the model, and a thread blocked in `cond.wait` is a
  worker in state `Waiting`.
* `WorkerState` is the control point of one worker thread (the lambda of lines 21-41).
* `Sys` is one pool together with its worker threads; `World` is the heap of pools
  that handles (`ThreadPool`, a possibly null `shared_ptr<Pool>`) point into.
* `step` is the interleaving semantics: one label per atomic action of a producer,
  of the owning handle, or of a worker.  `exec` runs a schedule and records, in a
  `History`, what an observer of the run sees (submissions, dequeues, completions).
* A notification takes effect together with the critical section that precedes it.
  A worker moved to `Checking` need not act at once and `wake` covers spurious
  wake-ups, so a notification that is delivered late is a schedule of the model too.

Tasks are opaque (`std::function<void()>`): the model is parametric in `Task`, and
whether a call `task()` returns or throws is a choice of the schedule.
-/

namespace ThreadPoolModel

/-- Control point of a worker thread.  `Checking`: at the head of `while(true)`
(line 24), about to run the test of lines 25-39 under the lock.  `Executing task`:
between `locker.unlock()` and `locker.lock()` (lines 32-34), running `task`.
`Waiting`: blocked in `pool->cond.wait(locker)` (line 39).  `Terminated`: left the
loop through `break` (line 37), the thread function has returned. -/
inductive WorkerState (Task : Type) where
  | Checking
  | Executing (task : Task)
  | Waiting
  | Terminated
  deriving DecidableEq, Repr

/-- The shared record `struct Pool` (lines 70-75), without `mtx` and `cond`. -/
structure Pool (Task : Type) where
  isClosed : Bool
  tasks : List Task
  deriving DecidableEq, Repr

/-- One pool with the worker threads that hold a reference to it.  `aborted` records
that `std::terminate` has been called in the process. -/
structure Sys (Task : Type) where
  pool : Pool Task
  workers : List (WorkerState Task)
  aborted : Bool
  deriving DecidableEq, Repr

/-- The heap of pools; a `shared_ptr<Pool>` is an index into it. -/
abbrev World (Task : Type) := List (Sys Task)

/-- The handle class: its only member is `std::shared_ptr<Pool> pool_` (line 76),
`none` being the null pointer. -/
structure ThreadPool where
  pool_ : Option Nat
  deriving DecidableEq, Repr

variable {Task : Type}

/-- One pass through the body of `while(true)` with the lock held (lines 25-39):
the resulting pool and the control point the worker reaches. -/
def workerLoop (p : Pool Task) : Pool Task × WorkerState Task :=
  match p.tasks with
  | task :: rest => ({ p with tasks := rest }, WorkerState.Executing task)
  | [] => if p.isClosed then (p, WorkerState.Terminated) else (p, WorkerState.Waiting)

/-- The fallback of `notify_one` when the scheduler's choice is not a waiting thread:
the first waiting worker, if there is one, is unblocked. -/
def wakeFirst : List (WorkerState Task) → List (WorkerState Task)
  | [] => []
  | WorkerState.Waiting :: ws => WorkerState.Checking :: ws
  | w :: ws => w :: wakeFirst ws

/-- The call `cond.notify_one()`: if any thread is blocked in `wait`, one of them is
unblocked (it re-acquires the lock and is back at the loop head); `pick` is the
scheduler's choice. -/
def notify_one (ws : List (WorkerState Task)) (pick : Nat) : List (WorkerState Task) :=
  match ws[pick]? with
  | some WorkerState.Waiting => ws.set pick WorkerState.Checking
  | _ => wakeFirst ws

/-- What `notify_all` does to one thread. -/
def wakeUp : WorkerState Task → WorkerState Task
  | WorkerState.Waiting => WorkerState.Checking
  | w => w

/-- The call `cond.notify_all()`: every thread blocked in `wait` is unblocked. -/
def notify_all (ws : List (WorkerState Task)) : List (WorkerState Task) :=
  ws.map wakeUp

/-- The loop of lines 19-42: one detached thread per iteration, each starting at the
head of its worker loop. -/
def spawn : Nat → List (WorkerState Task) → List (WorkerState Task)
  | 0, ws => ws
  | n + 1, ws => spawn n (ws ++ [WorkerState.Checking])

/-- The record made by `std::make_shared<Pool>()` (line 15), which value-initialises it:
`isClosed` is false and `tasks` is empty. -/
def Pool.fresh : Pool Task :=
  { isClosed := false, tasks := [] }

/-- The pool and threads that `ThreadPool(threadCount)` creates. -/
def Sys.fresh (threadCount : Nat) : Sys Task :=
  { pool := Pool.fresh, workers := spawn threadCount [], aborted := false }

/-- Body of `AddTask` (lines 61-65) on the pool `pool_` points to. -/
def Sys.AddTask (s : Sys Task) (task : Task) (pick : Nat) : Sys Task :=
  { s with
    pool := { s.pool with tasks := s.pool.tasks ++ [task] }
    workers := notify_one s.workers pick }

/-- Body of the destructor when `pool_` is not null (lines 51-55). -/
def Sys.close (s : Sys Task) : Sys Task :=
  { s with
    pool := { s.pool with isClosed := true }
    workers := notify_all s.workers }

/-- The constructor `explicit ThreadPool(size_t threadCount)` (lines 15-43):
`assert(threadCount > 0)` aborts on zero (`none`); otherwise a new pool is allocated,
`threadCount` threads are started on it and the handle points to it. -/
def ThreadPool.construct (threadCount : Nat) (w : World Task) :
    Option (ThreadPool × World Task) :=
  if threadCount > 0 then
    some ({ pool_ := some w.length }, w ++ [Sys.fresh threadCount])
  else
    none

/-- The default constructor `ThreadPool() = default` (line 45): `pool_` is null. -/
def ThreadPool.default : ThreadPool :=
  { pool_ := none }

/-- The move constructor `ThreadPool(ThreadPool&&) = default` (line 47): the new handle
takes the pointer and the source is left null.  Returns (new handle, moved-from
handle). -/
def ThreadPool.move (src : ThreadPool) : ThreadPool × ThreadPool :=
  ({ pool_ := src.pool_ }, { pool_ := none })

/-- The destructor `~ThreadPool()` (lines 49-57): nothing happens when `pool_` is null;
otherwise the pool it points to is closed and its waiting workers are notified.  (A
non-null `shared_ptr` always points to a live pool; the model leaves the heap unchanged
for an index outside it.) -/
def ThreadPool.destructor (h : ThreadPool) (w : World Task) : World Task :=
  match h.pool_ with
  | none => w
  | some p =>
    match w[p]? with
    | none => w
    | some s => w.set p s.close

/-- The member `AddTask` (lines 59-66).  `pool_->mtx` is dereferenced without a null
test: on a handle that holds no pool the call is undefined (`none`). -/
def ThreadPool.AddTask (h : ThreadPool) (w : World Task) (task : Task) (pick : Nat) :
    Option (World Task) :=
  match h.pool_ with
  | none => none
  | some p =>
    match w[p]? with
    | none => none
    | some s => some (w.set p (s.AddTask task pick))

/-- The atomic actions of the system on one pool. -/
inductive Label (Task : Type) where
  -- a producer calls `AddTask(task)`; `pick` resolves `notify_one`
  | submit (task : Task) (pick : Nat)
  -- the owning handle is destroyed
  | destruct
  -- worker `i`, at the loop head, runs lines 25-39 under the lock
  | check (i : Nat)
  -- the call `task()` of worker `i` returns and the worker re-locks (lines 33-34)
  | finish (i : Nat)
  -- the call `task()` of worker `i` throws
  | fail (i : Nat)
  -- worker `i` returns from `cond.wait` without a notification (spurious wake-up)
  | wake (i : Nat)
  deriving DecidableEq, Repr

/-- One atomic action.  `none`: the action is not enabled in `s`.

`fail i`: the lambda of lines 21-41 has no handler, so the exception leaves the
initial function of a `std::thread`, for which the C++ standard prescribes a call
to `std::terminate` ([thread.thread.constr]): the process is aborted and no thread
of it takes another step. -/
def step (s : Sys Task) (l : Label Task) : Option (Sys Task) :=
  if s.aborted then none
  else
    match l with
    | Label.submit task pick => some (s.AddTask task pick)
    | Label.destruct => some s.close
    | Label.check i =>
      match s.workers[i]? with
      | some WorkerState.Checking =>
        some { s with
          pool := (workerLoop s.pool).1
          workers := s.workers.set i (workerLoop s.pool).2 }
      | _ => none
    | Label.finish i =>
      match s.workers[i]? with
      | some (WorkerState.Executing _) =>
        some { s with workers := s.workers.set i WorkerState.Checking }
      | _ => none
    | Label.fail i =>
      match s.workers[i]? with
      | some (WorkerState.Executing _) => some { s with aborted := true }
      | _ => none
    | Label.wake i =>
      match s.workers[i]? with
      | some WorkerState.Waiting =>
        some { s with workers := s.workers.set i WorkerState.Checking }
      | _ => none

/-- What an observer of a run has seen: the tasks handed to `AddTask` (in the order
the calls took the lock), the tasks removed from the queue by workers (in dequeue
order; a dequeued task starts executing at once), and the tasks whose call has
returned. -/
structure History (Task : Type) where
  submitted : List Task
  dequeued : List Task
  completed : List Task
  deriving DecidableEq, Repr

/-- The history before anything has happened. -/
def History.empty : History Task :=
  { submitted := [], dequeued := [], completed := [] }

/-- Record the action `l`, taken in state `s` and leading to `s'`. -/
def observe (s s' : Sys Task) (l : Label Task) (h : History Task) : History Task :=
  match l with
  | Label.submit task _ => { h with submitted := h.submitted ++ [task] }
  | Label.check i =>
    match s'.workers[i]? with
    | some (WorkerState.Executing task) => { h with dequeued := h.dequeued ++ [task] }
    | _ => h
  | Label.finish i =>
    match s.workers[i]? with
    | some (WorkerState.Executing task) => { h with completed := h.completed ++ [task] }
    | _ => h
  | _ => h

/-- One observed action. -/
def stepH (c : Sys Task × History Task) (l : Label Task) : Option (Sys Task × History Task) :=
  match step c.1 l with
  | none => none
  | some s' => some (s', observe c.1 s' l c.2)

/-- Run a schedule; `none` when some action of it is not enabled. -/
def exec (c : Sys Task × History Task) : List (Label Task) → Option (Sys Task × History Task)
  | [] => some c
  | l :: ls =>
    match stepH c l with
    | none => none
    | some c' => exec c' ls

/-- The state right after `ThreadPool(threadCount)` has returned. -/
def init (threadCount : Nat) : Sys Task × History Task :=
  (Sys.fresh threadCount, History.empty)

/-- Is the action a call of `AddTask`? -/
def Label.isSubmit : Label Task → Bool
  | Label.submit _ _ => true
  | _ => false

/-- Is the action a task failure? -/
def Label.isFail : Label Task → Bool
  | Label.fail _ => true
  | _ => false

/-- No `AddTask` after the destructor has run. -/
def noSubmitAfterDestruct : List (Label Task) → Bool
  | [] => true
  | Label.destruct :: ls => ls.all (fun l => !l.isSubmit)
  | _ :: ls => noSubmitAfterDestruct ls

/-- No task fails in the schedule. -/
def noFail (ls : List (Label Task)) : Bool :=
  ls.all (fun l => !l.isFail)

/-! ## Relational reading of the actions, and the invariants of the runs -/

/-- The effect of an enabled action, as a relation between the state before and the
state after. -/
def Effect (s : Sys Task) : Label Task → Sys Task → Prop
  | Label.submit task pick, s' => s' = s.AddTask task pick
  | Label.destruct, s' => s' = s.close
  | Label.check i, s' =>
    s.workers[i]? = some WorkerState.Checking ∧
    s' = { s with
      pool := (workerLoop s.pool).1
      workers := s.workers.set i (workerLoop s.pool).2 }
  | Label.finish i, s' =>
    (∃ task, s.workers[i]? = some (WorkerState.Executing task)) ∧
    s' = { s with workers := s.workers.set i WorkerState.Checking }
  | Label.fail i, s' =>
    (∃ task, s.workers[i]? = some (WorkerState.Executing task)) ∧
    s' = { s with aborted := true }
  | Label.wake i, s' =>
    s.workers[i]? = some WorkerState.Waiting ∧
    s' = { s with workers := s.workers.set i WorkerState.Checking }

/-- The effect of an enabled action on the state and on the observer's history. -/
def EffectH (s : Sys Task) (h : History Task) : Label Task → Sys Task → History Task → Prop
  | Label.submit task pick, s', h' =>
    s' = s.AddTask task pick ∧ h' = { h with submitted := h.submitted ++ [task] }
  | Label.destruct, s', h' => s' = s.close ∧ h' = h
  | Label.check i, s', h' =>
    s.workers[i]? = some WorkerState.Checking ∧
    ((∃ task rest, s.pool.tasks = task :: rest ∧
        s' = { s with
          pool := { s.pool with tasks := rest }
          workers := s.workers.set i (WorkerState.Executing task) } ∧
        h' = { h with dequeued := h.dequeued ++ [task] }) ∨
     (s.pool.tasks = [] ∧ s.pool.isClosed = true ∧
        s' = { s with workers := s.workers.set i WorkerState.Terminated } ∧ h' = h) ∨
     (s.pool.tasks = [] ∧ s.pool.isClosed = false ∧
        s' = { s with workers := s.workers.set i WorkerState.Waiting } ∧ h' = h))
  | Label.finish i, s', h' =>
    ∃ task, s.workers[i]? = some (WorkerState.Executing task) ∧
      s' = { s with workers := s.workers.set i WorkerState.Checking } ∧
      h' = { h with completed := h.completed ++ [task] }
  | Label.fail i, s', h' =>
    ∃ task, s.workers[i]? = some (WorkerState.Executing task) ∧
      s' = { s with aborted := true } ∧ h' = h
  | Label.wake i, s', h' =>
    s.workers[i]? = some WorkerState.Waiting ∧
      s' = { s with workers := s.workers.set i WorkerState.Checking } ∧ h' = h

/-- The queue invariant: what has been dequeued, followed by what is still queued, is
what has been submitted. -/
def FifoInv (s : Sys Task) (h : History Task) : Prop :=
  h.dequeued ++ s.pool.tasks = h.submitted

/-- Once a worker has left its loop, the queue is empty and the pool is closed. -/
def DrainInv (s : Sys Task) : Prop :=
  (∃ j : Nat, s.workers[j]? = some WorkerState.Terminated) →
    s.pool.tasks = [] ∧ s.pool.isClosed = true

/-- With one worker, at most one dequeued task has not completed yet, and it is the
one the worker is executing. -/
def SingleInv (s : Sys Task) (h : History Task) : Prop :=
  (∃ task, s.workers = [WorkerState.Executing task] ∧ h.dequeued = h.completed ++ [task]) ∨
  (∃ w, s.workers = [w] ∧ (∀ task, w ≠ WorkerState.Executing task) ∧
    h.dequeued = h.completed)

/-! ## The owning handle and its lifetime

`isClosed` is written at one place, line 53, inside `~ThreadPool()`.  The class has a
user-declared move constructor (line 47), so it has no copy constructor and no
assignment, and `pool_` is private (line 76): at any time exactly one handle points to
a pool.  Its destructor ends the lifetime of that handle, and a member call on an
object whose lifetime has ended is undefined.  `Client` adds to `Sys` whether the
owning handle still exists, and `clientStep` lets the handle's members be called only
while it does. -/

/-- A pool together with the fact whether the handle that owns it still exists
(`owner = false` once `~ThreadPool()` has run on it). -/
structure Client (Task : Type) where
  owner : Bool
  sys : Sys Task
  deriving DecidableEq, Repr

/-- The state right after `ThreadPool(threadCount)` has returned: the handle exists. -/
def Client.init (threadCount : Nat) : Client Task :=
  { owner := true, sys := Sys.fresh threadCount }

theorem workerLoop_isClosed (p : Pool Task) : (workerLoop p).1.isClosed = p.isClosed := by
  unfold workerLoop
  split
  · rfl
  · split <;> rfl

/-- Inversion of `step`: what an enabled action did. -/
theorem step_inv {s s' : Sys Task} {l : Label Task} (h : step s l = some s') :
    s.aborted = false ∧ Effect s l s' := by
  unfold step at h
  split at h
  · exact absurd h (by simp)
  · rename_i hab
    refine ⟨by simpa using hab, ?_⟩
    cases l with
    | submit task pick => simpa [Effect] using h.symm
    | destruct => simpa [Effect] using h.symm
    | check i =>
      simp only at h
      split at h
      · rename_i hw
        exact ⟨hw, by simpa using h.symm⟩
      · exact absurd h (by simp)
    | finish i =>
      simp only at h
      split at h
      · rename_i t hw
        exact ⟨⟨t, hw⟩, by simpa using h.symm⟩
      · exact absurd h (by simp)
    | fail i =>
      simp only at h
      split at h
      · rename_i t hw
        exact ⟨⟨t, hw⟩, by simpa using h.symm⟩
      · exact absurd h (by simp)
    | wake i =>
      simp only at h
      split at h
      · rename_i hw
        exact ⟨hw, by simpa using h.symm⟩
      · exact absurd h (by simp)

/-! ## Notifications and thread creation -/

theorem wakeFirst_spec (ws : List (WorkerState Task)) :
    (wakeFirst ws = ws ∧ ∀ x ∈ ws, x ≠ WorkerState.Waiting) ∨
    ∃ i, ws[i]? = some WorkerState.Waiting ∧ wakeFirst ws = ws.set i WorkerState.Checking := by
  induction ws with
  | nil => left; simp [wakeFirst]
  | cons x xs ih =>
    cases x with
    | Waiting => right; exact ⟨0, by simp [wakeFirst]⟩
    | Checking =>
      rcases ih with ⟨h1, h2⟩ | ⟨i, h1, h2⟩
      · left; simpa [wakeFirst, h1] using h2
      · right; exact ⟨i + 1, by simpa [wakeFirst, h2] using h1⟩
    | Executing t =>
      rcases ih with ⟨h1, h2⟩ | ⟨i, h1, h2⟩
      · left; simpa [wakeFirst, h1] using h2
      · right; exact ⟨i + 1, by simpa [wakeFirst, h2] using h1⟩
    | Terminated =>
      rcases ih with ⟨h1, h2⟩ | ⟨i, h1, h2⟩
      · left; simpa [wakeFirst, h1] using h2
      · right; exact ⟨i + 1, by simpa [wakeFirst, h2] using h1⟩

/-- The call `notify_one` either finds nobody waiting and changes nothing, or moves
exactly one waiting worker back to the loop head. -/
theorem notify_one_spec (ws : List (WorkerState Task)) (pick : Nat) :
    (notify_one ws pick = ws ∧ ∀ x ∈ ws, x ≠ WorkerState.Waiting) ∨
    ∃ i, ws[i]? = some WorkerState.Waiting ∧
      notify_one ws pick = ws.set i WorkerState.Checking := by
  unfold notify_one
  split
  · rename_i hw
    right; exact ⟨pick, hw, rfl⟩
  · exact wakeFirst_spec ws

theorem notify_all_getElem? (ws : List (WorkerState Task)) (i : Nat) :
    (notify_all ws)[i]? = (ws[i]?).map wakeUp := by
  simp [notify_all]

theorem spawn_eq (n : Nat) (ws : List (WorkerState Task)) :
    spawn n ws = ws ++ List.replicate n WorkerState.Checking := by
  induction n generalizing ws with
  | zero => simp [spawn]
  | succ n ih => simp [spawn, ih, List.replicate_succ]

theorem getElem?_set_some {α : Type} (ws : List α) (i j : Nat) (a b : α)
    (h : (ws.set i a)[j]? = some b) : (j = i ∧ b = a) ∨ (j ≠ i ∧ ws[j]? = some b) := by
  by_cases hji : j = i
  · subst hji
    left
    rw [List.getElem?_set] at h
    simp at h
    exact ⟨rfl, h.2.symm⟩
  · right
    rw [List.getElem?_set_ne (fun hh => hji hh.symm)] at h
    exact ⟨hji, h⟩

theorem workerLoop_Terminated (p : Pool Task) (h : (workerLoop p).2 = WorkerState.Terminated) :
    p.tasks = [] ∧ p.isClosed = true := by
  unfold workerLoop at h
  split at h
  · simp at h
  · rename_i hq
    split at h
    · rename_i hc; exact ⟨hq, hc⟩
    · simp at h

theorem wakeUp_Terminated (x : WorkerState Task) (h : wakeUp x = WorkerState.Terminated) :
    x = WorkerState.Terminated := by
  cases x <;> simp [wakeUp] at h ⊢

/-- A worker enters `Terminated` only through its own test at the loop head, with the
queue empty and `isClosed` set. -/
theorem entersTerminated {s s' : Sys Task} {l : Label Task} {j : Nat}
    (hstep : step s l = some s')
    (hpre : s.workers[j]? ≠ some WorkerState.Terminated)
    (hpost : s'.workers[j]? = some WorkerState.Terminated) :
    l = Label.check j ∧ s.pool.tasks = [] ∧ s.pool.isClosed = true := by
  obtain ⟨_, h⟩ := step_inv hstep
  clear hstep
  cases l <;> simp only [Effect] at h
  case submit task pick =>
    subst h
    simp only [Sys.AddTask] at hpost
    rcases notify_one_spec s.workers pick with ⟨h1, _⟩ | ⟨i, _, h2⟩
    · rw [h1] at hpost; exact absurd hpost hpre
    · rw [h2] at hpost
      rcases getElem?_set_some _ _ _ _ _ hpost with ⟨_, h3⟩ | ⟨_, h3⟩
      · cases h3
      · exact absurd h3 hpre
  case destruct =>
    subst h
    simp only [Sys.close, notify_all_getElem?] at hpost
    cases hw : s.workers[j]? with
    | none => simp [hw] at hpost
    | some x =>
      simp [hw] at hpost
      rw [wakeUp_Terminated x hpost] at hw
      exact absurd hw hpre
  case check i =>
    obtain ⟨_, h⟩ := h
    subst h
    simp only at hpost
    rcases getElem?_set_some _ _ _ _ _ hpost with ⟨h3, h4⟩ | ⟨_, h3⟩
    · subst h3
      exact ⟨rfl, workerLoop_Terminated _ h4.symm⟩
    · exact absurd h3 hpre
  case finish i =>
    obtain ⟨_, h⟩ := h
    subst h
    simp only at hpost
    rcases getElem?_set_some _ _ _ _ _ hpost with ⟨_, h3⟩ | ⟨_, h3⟩
    · cases h3
    · exact absurd h3 hpre
  case fail i =>
    obtain ⟨_, h⟩ := h
    subst h
    exact absurd hpost hpre
  case wake i =>
    obtain ⟨_, h⟩ := h
    subst h
    simp only at hpost
    rcases getElem?_set_some _ _ _ _ _ hpost with ⟨_, h3⟩ | ⟨_, h3⟩
    · cases h3
    · exact absurd h3 hpre

/-! ## The closed flag -/

/-- C7: `closed` is monotonic.  For every enabled action of the system, if `isClosed`
was true it is still true afterwards; every action other than the destructor leaves
`isClosed` as it was, and the destructor leaves it true. -/
theorem closed_monotonic (s s' : Sys Task) (l : Label Task) (hstep : step s l = some s') :
    (s.pool.isClosed = true → s'.pool.isClosed = true) ∧
    (l ≠ Label.destruct → s'.pool.isClosed = s.pool.isClosed) ∧
    (l = Label.destruct → s'.pool.isClosed = true) := by
  obtain ⟨_, h⟩ := step_inv hstep
  clear hstep
  cases l <;> simp only [Effect] at h
  case submit task pick => subst h; simp [Sys.AddTask]
  case destruct => subst h; simp [Sys.close]
  case check i => obtain ⟨_, h⟩ := h; subst h; simp [workerLoop_isClosed]
  case finish i => obtain ⟨_, h⟩ := h; subst h; simp
  case fail i => obtain ⟨_, h⟩ := h; subst h; simp
  case wake i => obtain ⟨_, h⟩ := h; subst h; simp

/-! ## The worker's test at the loop head -/

/-- C3: the Checking step decides in this order.  For a worker at the loop head of a
live process: if the queue is non-empty the front task is removed and the worker goes
to Executing with it, whatever `isClosed` is; otherwise, if `isClosed` is true, it goes
to Terminated; otherwise it goes to Waiting.  And for every action of the system, a
worker that enters Terminated does so by its own Checking step, from a state whose
queue is empty and whose `isClosed` is true. -/
theorem checking_step_order (s : Sys Task) (i : Nat) (hrun : s.aborted = false)
    (hi : s.workers[i]? = some WorkerState.Checking) :
    (∀ task rest, s.pool.tasks = task :: rest →
      step s (Label.check i) = some
        { pool := { isClosed := s.pool.isClosed, tasks := rest }
          workers := s.workers.set i (WorkerState.Executing task)
          aborted := false }) ∧
    (s.pool.tasks = [] → s.pool.isClosed = true →
      step s (Label.check i) = some
        { pool := s.pool, workers := s.workers.set i WorkerState.Terminated, aborted := false }) ∧
    (s.pool.tasks = [] → s.pool.isClosed = false →
      step s (Label.check i) = some
        { pool := s.pool, workers := s.workers.set i WorkerState.Waiting, aborted := false }) ∧
    (∀ (l : Label Task) (s' : Sys Task) (j : Nat), step s l = some s' →
      s.workers[j]? ≠ some WorkerState.Terminated →
      s'.workers[j]? = some WorkerState.Terminated →
      l = Label.check j ∧ s.pool.tasks = [] ∧ s.pool.isClosed = true) := by
  refine ⟨?_, ?_, ?_, ?_⟩
  · intro task rest hq
    simp [step, hrun, hi, workerLoop, hq]
  · intro hq hc
    simp [step, hrun, hi, workerLoop, hq, hc]
  · intro hq hc
    simp [step, hrun, hi, workerLoop, hq, hc]
  · intro l s' j hstep hpre hpost
    exact entersTerminated hstep hpre hpost

/-- Witness for C7: a submission to a closed pool leaves it closed. -/
theorem closed_monotonic_witness :
    step ({ pool := { isClosed := true, tasks := [5] }
            workers := [WorkerState.Checking, WorkerState.Waiting]
            aborted := false } : Sys Nat) (Label.submit 6 1) =
      some { pool := { isClosed := true, tasks := [5, 6] }
             workers := [WorkerState.Checking, WorkerState.Checking]
             aborted := false } ∧
    ((true = true → true = true) ∧
     ((Label.submit 6 1 : Label Nat) ≠ Label.destruct → true = true) ∧
     ((Label.submit 6 1 : Label Nat) = Label.destruct → true = true)) :=
  ⟨by decide,
   closed_monotonic
     ({ pool := { isClosed := true, tasks := [5] }
        workers := [WorkerState.Checking, WorkerState.Waiting]
        aborted := false } : Sys Nat)
     { pool := { isClosed := true, tasks := [5, 6] }
       workers := [WorkerState.Checking, WorkerState.Checking]
       aborted := false }
     (Label.submit 6 1) (by decide)⟩

/-- Witness for C3: a worker at the loop head of a closed pool whose queue is [4, 9]
takes 4 and executes it. -/
theorem checking_step_order_witness :
    step ({ pool := { isClosed := true, tasks := [4, 9] }
            workers := [WorkerState.Waiting, WorkerState.Checking]
            aborted := false } : Sys Nat) (Label.check 1) =
      some { pool := { isClosed := true, tasks := [9] }
             workers := [WorkerState.Waiting, WorkerState.Executing 4]
             aborted := false } :=
  (checking_step_order
    ({ pool := { isClosed := true, tasks := [4, 9] }
       workers := [WorkerState.Waiting, WorkerState.Checking]
       aborted := false } : Sys Nat) 1 (by decide) (by decide)).1 4 [9] rfl

/-! ## The handle: construction, submission, destruction -/

/-- C10: `Construct(workerCount)` fails fatally when `workerCount = 0`; for every
`workerCount ≥ 1` it returns a handle to a newly allocated pool with `isClosed = false`,
an empty queue and exactly `workerCount` workers of that one pool, each at Checking,
leaving the pools that existed before untouched. -/
theorem construct_spec (threadCount : Nat) (w : World Task) :
    (threadCount = 0 → ThreadPool.construct threadCount w = none) ∧
    (1 ≤ threadCount → ∃ s : Sys Task,
      ThreadPool.construct threadCount w = some ({ pool_ := some w.length }, w ++ [s]) ∧
      (w ++ [s])[w.length]? = some s ∧
      s = Sys.fresh threadCount ∧
      s.pool.isClosed = false ∧ s.pool.tasks = [] ∧ s.aborted = false ∧
      s.workers.length = threadCount ∧
      s.workers = List.replicate threadCount WorkerState.Checking) := by
  constructor
  · intro h0
    simp [ThreadPool.construct, h0]
  · intro h1
    refine ⟨Sys.fresh threadCount, ?_, ?_, rfl, rfl, rfl, rfl, ?_, ?_⟩
    · have : threadCount > 0 := h1
      simp [ThreadPool.construct, this]
    · simp
    · simp [Sys.fresh, spawn_eq]
    · simp [Sys.fresh, spawn_eq]

/-- C8: `Submit(task)` on a handle that points to a pool.  For every queue and every
value of `isClosed` the call returns normally; the pool's queue is the old queue with
`task` appended at the tail (length + 1), `isClosed` is unchanged, and either no worker
was waiting and no worker state changes, or exactly one waiting worker is moved to
Checking and every other worker state is unchanged.  The action is enabled in every
state of a live process. -/
theorem addTask_spec (h : ThreadPool) (w : World Task) (p : Nat) (s : Sys Task)
    (task : Task) (pick : Nat) (hp : h.pool_ = some p) (hs : w[p]? = some s) :
    ∃ s' : Sys Task,
      h.AddTask w task pick = some (w.set p s') ∧
      s'.pool.tasks = s.pool.tasks ++ [task] ∧
      s'.pool.tasks.length = s.pool.tasks.length + 1 ∧
      s'.pool.isClosed = s.pool.isClosed ∧
      s'.aborted = s.aborted ∧
      ((s'.workers = s.workers ∧ ∀ x ∈ s.workers, x ≠ WorkerState.Waiting) ∨
        ∃ i, s.workers[i]? = some WorkerState.Waiting ∧
          s'.workers = s.workers.set i WorkerState.Checking) ∧
      (s.aborted = false → step s (Label.submit task pick) = some s') := by
  refine ⟨s.AddTask task pick, ?_, rfl, ?_, rfl, rfl, ?_, ?_⟩
  · simp [ThreadPool.AddTask, hp, hs]
  · simp [Sys.AddTask]
  · exact notify_one_spec s.workers pick
  · intro hrun
    simp [step, hrun]

/-- Witness for C8: a submission to a closed pool with a long queue and a waiting
worker. -/
theorem addTask_spec_witness :
    ∃ s' : Sys Nat,
      ThreadPool.AddTask { pool_ := some 0 }
        [{ pool := { isClosed := true, tasks := [1, 2, 3] }
           workers := [WorkerState.Executing 0, WorkerState.Waiting, WorkerState.Waiting]
           aborted := false }] 4 2 =
        some ([{ pool := { isClosed := true, tasks := [1, 2, 3] }
                 workers := [WorkerState.Executing 0, WorkerState.Waiting, WorkerState.Waiting]
                 aborted := false }].set 0 s') ∧
      s'.pool.tasks = [1, 2, 3] ++ [4] :=
  let ⟨s', h1, h2, _⟩ := addTask_spec { pool_ := some 0 }
    ([{ pool := { isClosed := true, tasks := [1, 2, 3] }
        workers := [WorkerState.Executing 0, WorkerState.Waiting, WorkerState.Waiting]
        aborted := false }] : World Nat) 0
    { pool := { isClosed := true, tasks := [1, 2, 3] }
      workers := [WorkerState.Executing 0, WorkerState.Waiting, WorkerState.Waiting]
      aborted := false } 4 2 rfl rfl
  ⟨s', h1, h2⟩

/-- C9: the destructor.  On a handle that points to a pool it sets `isClosed = true`,
leaves the queue as it is, moves every Waiting worker to Checking and leaves every
other worker state unchanged, whatever the queue holds (the action is enabled in every
state of a live process).  On a handle that holds no pool (as a default-constructed or
a moved-from handle does) it changes nothing in any pool. -/
theorem destructor_spec (h : ThreadPool) (w : World Task) :
    (∀ p s, h.pool_ = some p → w[p]? = some s →
      ∃ s' : Sys Task,
        h.destructor w = w.set p s' ∧
        s'.pool.isClosed = true ∧
        s'.pool.tasks = s.pool.tasks ∧
        s'.aborted = s.aborted ∧
        s'.workers.length = s.workers.length ∧
        (∀ i : Nat, s.workers[i]? = some WorkerState.Waiting →
          s'.workers[i]? = some WorkerState.Checking) ∧
        (∀ (i : Nat) (x : WorkerState Task), s.workers[i]? = some x →
          x ≠ WorkerState.Waiting → s'.workers[i]? = some x) ∧
        (s.aborted = false → step s Label.destruct = some s')) ∧
    (h.pool_ = none → h.destructor w = w) ∧
    ThreadPool.default.pool_ = none ∧
    (ThreadPool.move h).2.pool_ = none ∧
    (ThreadPool.move h).1.pool_ = h.pool_ ∧
    ThreadPool.destructor ThreadPool.default w = w ∧
    ThreadPool.destructor (ThreadPool.move h).2 w = w := by
  refine ⟨?_, ?_, rfl, rfl, rfl, rfl, rfl⟩
  · intro p s hp hs
    refine ⟨s.close, ?_, rfl, rfl, rfl, ?_, ?_, ?_, ?_⟩
    · simp [ThreadPool.destructor, hp, hs]
    · simp [Sys.close, notify_all]
    · intro i hi
      simp [Sys.close, notify_all_getElem?, hi, wakeUp]
    · intro i x hi hx
      cases x <;> simp_all [Sys.close, notify_all_getElem?, wakeUp]
    · intro hrun
      simp [step, hrun]
  · intro hp
    simp [ThreadPool.destructor, hp]

/-! ## Observed runs -/

theorem getElem?_set_self_of_some {α : Type} (ws : List α) (i : Nat) (a b : α)
    (h : ws[i]? = some a) : (ws.set i b)[i]? = some b := by
  have hlt : i < ws.length := by
    by_contra hge
    rw [List.getElem?_eq_none (Nat.le_of_not_lt hge)] at h
    cases h
  rw [List.getElem?_set]
  simp [hlt]

/-- Inversion of `stepH`. -/
theorem stepH_inv {s s' : Sys Task} {h h' : History Task} {l : Label Task}
    (hstep : stepH (s, h) l = some (s', h')) :
    s.aborted = false ∧ EffectH s h l s' h' := by
  unfold stepH at hstep
  split at hstep
  · cases hstep
  · rename_i s1 hs1
    simp only [Option.some.injEq, Prod.mk.injEq] at hstep
    obtain ⟨e1, e2⟩ := hstep
    subst e1
    obtain ⟨hab, hE⟩ := step_inv hs1
    refine ⟨hab, ?_⟩
    clear hs1
    cases l <;> simp only [Effect] at hE <;> simp only [EffectH]
    case submit task pick => exact ⟨hE, by simp [← e2, observe]⟩
    case destruct => exact ⟨hE, by simp [← e2, observe]⟩
    case check i =>
      obtain ⟨hw, hE⟩ := hE
      refine ⟨hw, ?_⟩
      subst hE
      simp only [observe, getElem?_set_self_of_some _ _ _ _ hw] at e2
      cases hq : s.pool.tasks with
      | nil =>
        cases hc : s.pool.isClosed with
        | true =>
          right; left
          simp [workerLoop, hq, hc] at e2 ⊢
          exact e2.symm
        | false =>
          right; right
          simp [workerLoop, hq, hc] at e2 ⊢
          exact e2.symm
      | cons task rest =>
        left
        refine ⟨task, rest, rfl, ?_⟩
        simp [workerLoop, hq] at e2 ⊢
        exact e2.symm
    case finish i =>
      obtain ⟨⟨task, hw⟩, hE⟩ := hE
      refine ⟨task, hw, hE, ?_⟩
      simp [← e2, observe, hw]
    case fail i =>
      obtain ⟨⟨task, hw⟩, hE⟩ := hE
      exact ⟨task, hw, hE, by simp [← e2, observe]⟩
    case wake i =>
      obtain ⟨hw, hE⟩ := hE
      exact ⟨hw, hE, by simp [← e2, observe]⟩

/-- A property of observed states that holds initially and is preserved by every
enabled action holds after every schedule. -/
theorem exec_induct (P : Sys Task → History Task → Prop)
    (hP : ∀ s h l s' h', P s h → stepH (s, h) l = some (s', h') → P s' h')
    (tr : List (Label Task)) :
    ∀ s h s' h', P s h → exec (s, h) tr = some (s', h') → P s' h' := by
  induction tr with
  | nil =>
    intro s h s' h' h0 hrun
    simp only [exec, Option.some.injEq, Prod.mk.injEq] at hrun
    obtain ⟨e1, e2⟩ := hrun
    subst e1; subst e2
    exact h0
  | cons l ls ih =>
    intro s h s' h' h0 hrun
    simp only [exec] at hrun
    split at hrun
    · cases hrun
    · rename_i c1 hc1
      obtain ⟨s1, h1⟩ := c1
      exact ih s1 h1 s' h' (hP s h l s1 h1 h0 hc1) hrun

/-! ## FIFO order -/

theorem fifoInv_step (s : Sys Task) (h : History Task) (l : Label Task) (s' : Sys Task)
    (h' : History Task) (hinv : FifoInv s h) (hstep : stepH (s, h) l = some (s', h')) :
    FifoInv s' h' := by
  obtain ⟨_, hE⟩ := stepH_inv hstep
  clear hstep
  unfold FifoInv at hinv ⊢
  cases l <;> simp only [EffectH] at hE
  case submit task pick =>
    obtain ⟨e1, e2⟩ := hE
    subst e1; subst e2
    simp [Sys.AddTask, ← hinv]
  case destruct =>
    obtain ⟨e1, e2⟩ := hE
    subst e1; subst e2
    simpa [Sys.close] using hinv
  case check i =>
    obtain ⟨_, hE⟩ := hE
    rcases hE with ⟨task, rest, hq, e1, e2⟩ | ⟨_, _, e1, e2⟩ | ⟨_, _, e1, e2⟩
    · subst e1; subst e2
      simp [← hinv, hq]
    · subst e1; subst e2; exact hinv
    · subst e1; subst e2; exact hinv
  case finish i =>
    obtain ⟨task, _, e1, e2⟩ := hE
    subst e1; subst e2; exact hinv
  case fail i =>
    obtain ⟨task, _, e1, e2⟩ := hE
    subst e1; subst e2; exact hinv
  case wake i =>
    obtain ⟨_, e1, e2⟩ := hE
    subst e1; subst e2; exact hinv

theorem fifoInv_reachable (W : Nat) (tr : List (Label Task)) (s : Sys Task)
    (h : History Task) (hrun : exec (init W) tr = some (s, h)) : FifoInv s h :=
  exec_induct FifoInv fifoInv_step tr (Sys.fresh W) History.empty s h
    (by simp [FifoInv, Sys.fresh, Pool.fresh, History.empty]) hrun

/-- C1: tasks are dequeued in strict FIFO submission order, none lost and none dequeued
twice.  In every state reachable from a freshly constructed pool with `W ≥ 1` workers
by any schedule of submissions, destruction and worker actions, the sequence of tasks
dequeued so far (in dequeue order) followed by the current queue equals the sequence
of tasks submitted so far. -/
theorem fifo_dequeue_order (W : Nat) (_hW : 1 ≤ W) (tr : List (Label Task)) (s : Sys Task)
    (h : History Task) (hrun : exec (init W) tr = some (s, h)) :
    h.dequeued ++ s.pool.tasks = h.submitted := by
  have h0 : FifoInv (Sys.fresh W : Sys Task) History.empty := by
    simp [FifoInv, Sys.fresh, Pool.fresh, History.empty]
  have hinv : FifoInv s h :=
    exec_induct FifoInv fifoInv_step tr (Sys.fresh W) History.empty s h h0 hrun
  exact hinv

/-- Witness for C1: two workers, two submissions, both dequeued, a third task queued. -/
theorem fifo_dequeue_order_witness :
    1 ≤ 2 ∧
    exec (init 2 : Sys Nat × History Nat)
      [Label.submit 7 0, Label.check 0, Label.submit 8 0, Label.check 1, Label.finish 0,
       Label.submit 9 0] =
      some ({ pool := { isClosed := false, tasks := [9] }
              workers := [WorkerState.Checking, WorkerState.Executing 8]
              aborted := false },
            { submitted := [7, 8, 9], dequeued := [7, 8], completed := [7] }) ∧
    [7, 8] ++ [9] = [7, 8, 9] :=
  ⟨by decide, by decide,
   fifo_dequeue_order 2 (by decide)
     [Label.submit 7 0, Label.check 0, Label.submit 8 0, Label.check 1, Label.finish 0,
      Label.submit 9 0]
     { pool := { isClosed := false, tasks := [9] }
       workers := [WorkerState.Checking, WorkerState.Executing 8]
       aborted := false }
     { submitted := [7, 8, 9], dequeued := [7, 8], completed := [7] } (by decide)⟩

/-! ## Shutdown drains the queue -/

theorem step_tasks_nil {s s' : Sys Task} {l : Label Task} (hstep : step s l = some s')
    (hl : l.isSubmit = false) (hq : s.pool.tasks = []) : s'.pool.tasks = [] := by
  obtain ⟨_, h⟩ := step_inv hstep
  clear hstep
  cases l <;> simp only [Effect] at h
  case submit task pick => simp [Label.isSubmit] at hl
  case destruct => subst h; simpa [Sys.close] using hq
  case check i => obtain ⟨_, h⟩ := h; subst h; simp [workerLoop, hq]; split <;> simp [hq]
  case finish i => obtain ⟨_, h⟩ := h; subst h; simpa using hq
  case fail i => obtain ⟨_, h⟩ := h; subst h; simpa using hq
  case wake i => obtain ⟨_, h⟩ := h; subst h; simpa using hq

theorem step_isClosed_true {s s' : Sys Task} {l : Label Task} (hstep : step s l = some s')
    (hc : s.pool.isClosed = true) : s'.pool.isClosed = true := by
  obtain ⟨_, h⟩ := step_inv hstep
  clear hstep
  cases l <;> simp only [Effect] at h
  case submit task pick => subst h; simpa [Sys.AddTask] using hc
  case destruct => subst h; simp [Sys.close]
  case check i => obtain ⟨_, h⟩ := h; subst h; simpa [workerLoop_isClosed] using hc
  case finish i => obtain ⟨_, h⟩ := h; subst h; simpa using hc
  case fail i => obtain ⟨_, h⟩ := h; subst h; simpa using hc
  case wake i => obtain ⟨_, h⟩ := h; subst h; simpa using hc

theorem step_isClosed_eq {s s' : Sys Task} {l : Label Task} (hstep : step s l = some s')
    (hl : l ≠ Label.destruct) : s'.pool.isClosed = s.pool.isClosed := by
  obtain ⟨_, h⟩ := step_inv hstep
  clear hstep
  cases l <;> simp only [Effect] at h
  case submit task pick => subst h; simp [Sys.AddTask]
  case destruct => exact absurd rfl hl
  case check i => obtain ⟨_, h⟩ := h; subst h; simp [workerLoop_isClosed]
  case finish i => obtain ⟨_, h⟩ := h; subst h; simp
  case fail i => obtain ⟨_, h⟩ := h; subst h; simp
  case wake i => obtain ⟨_, h⟩ := h; subst h; simp

theorem step_workers_length {s s' : Sys Task} {l : Label Task} (hstep : step s l = some s') :
    s'.workers.length = s.workers.length := by
  obtain ⟨_, h⟩ := step_inv hstep
  clear hstep
  cases l <;> simp only [Effect] at h
  case submit task pick =>
    subst h
    rcases notify_one_spec s.workers pick with ⟨h1, _⟩ | ⟨i, _, h2⟩
    · simp [Sys.AddTask, h1]
    · simp [Sys.AddTask, h2]
  case destruct => subst h; simp [Sys.close, notify_all]
  case check i => obtain ⟨_, h⟩ := h; subst h; simp
  case finish i => obtain ⟨_, h⟩ := h; subst h; simp
  case fail i => obtain ⟨_, h⟩ := h; subst h; simp
  case wake i => obtain ⟨_, h⟩ := h; subst h; simp

theorem drainInv_step {s s' : Sys Task} {l : Label Task} (hinv : DrainInv s)
    (hstep : step s l = some s')
    (hsub : l.isSubmit = true → s.pool.isClosed = false) : DrainInv s' := by
  intro ⟨j, hj⟩
  have key : l.isSubmit = false ∧ s.pool.tasks = [] ∧ s.pool.isClosed = true := by
    by_cases hpre : s.workers[j]? = some WorkerState.Terminated
    · obtain ⟨hq, hc⟩ := hinv ⟨j, hpre⟩
      refine ⟨?_, hq, hc⟩
      cases hl : l.isSubmit with
      | false => rfl
      | true => rw [hsub hl] at hc; cases hc
    · obtain ⟨hl, hq, hc⟩ := entersTerminated hstep hpre hj
      exact ⟨by simp [hl, Label.isSubmit], hq, hc⟩
  exact ⟨step_tasks_nil hstep key.1 key.2.1, step_isClosed_true hstep key.2.2⟩

theorem no_submit_noSubmitAfterDestruct (ls : List (Label Task))
    (h : ls.all (fun l => !l.isSubmit) = true) : noSubmitAfterDestruct ls = true := by
  induction ls with
  | nil => rfl
  | cons l ls ih =>
    simp only [List.all_cons, Bool.and_eq_true] at h
    cases l <;> simp only [noSubmitAfterDestruct]
    case destruct => exact h.2
    all_goals exact ih h.2

theorem drainInv_exec (tr : List (Label Task)) :
    ∀ (s : Sys Task) (h : History Task) (s' : Sys Task) (h' : History Task),
      DrainInv s → noSubmitAfterDestruct tr = true →
      (s.pool.isClosed = true → tr.all (fun l => !l.isSubmit) = true) →
      exec (s, h) tr = some (s', h') → DrainInv s' := by
  induction tr with
  | nil =>
    intro s h s' h' hinv _ _ hrun
    simp only [exec, Option.some.injEq, Prod.mk.injEq] at hrun
    rw [← hrun.1]
    exact hinv
  | cons l ls ih =>
    intro s h s' h' hinv hns hcl hrun
    simp only [exec] at hrun
    split at hrun
    · cases hrun
    · rename_i c1 hc1
      obtain ⟨s1, h1⟩ := c1
      have hs1 : step s l = some s1 := by
        unfold stepH at hc1
        split at hc1
        · cases hc1
        · rename_i s2 hs2
          simp only [Option.some.injEq, Prod.mk.injEq] at hc1
          rw [← hc1.1]; exact hs2
      have hsub : l.isSubmit = true → s.pool.isClosed = false := by
        intro hl
        cases hc : s.pool.isClosed with
        | false => rfl
        | true =>
          have := hcl hc
          simp only [List.all_cons, Bool.and_eq_true] at this
          rw [hl] at this
          simp at this
      have hns1 : noSubmitAfterDestruct ls = true := by
        cases l <;> simp only [noSubmitAfterDestruct] at hns
        case destruct => exact no_submit_noSubmitAfterDestruct ls hns
        all_goals exact hns
      have hcl1 : s1.pool.isClosed = true → ls.all (fun l => !l.isSubmit) = true := by
        intro hc1
        by_cases hd : l = Label.destruct
        · subst hd
          simpa [noSubmitAfterDestruct] using hns
        · rw [step_isClosed_eq hs1 hd] at hc1
          have := hcl hc1
          simp only [List.all_cons, Bool.and_eq_true] at this
          exact this.2
      exact ih s1 h1 s' h' (drainInv_step hinv hs1 hsub) hns1 hcl1 hrun

theorem exec_workers_length (tr : List (Label Task)) (s : Sys Task) (h : History Task)
    (s' : Sys Task) (h' : History Task) (hrun : exec (s, h) tr = some (s', h')) :
    s'.workers.length = s.workers.length := by
  refine exec_induct (fun s1 _ => s1.workers.length = s.workers.length) ?_ tr s h s' h' rfl hrun
  intro s1 h1 l s2 h2 hlen hstep
  have hs : step s1 l = some s2 := by
    unfold stepH at hstep
    split at hstep
    · cases hstep
    · rename_i s3 hs3
      simp only [Option.some.injEq, Prod.mk.injEq] at hstep
      rw [← hstep.1]; exact hs3
  rw [step_workers_length hs]; exact hlen

/-- C2: after shutdown is triggered, tasks submitted before it are still executed.
For every run from a freshly constructed pool (`W ≥ 1`) in which no submission happens
after the destructor and no task fails: in every reachable state in which some worker
is Terminated the queue is empty, and in every reachable state in which all workers are
Terminated every submitted task has been dequeued by a worker. -/
theorem shutdown_drains_queue (W : Nat) (hW : 1 ≤ W) (tr : List (Label Task))
    (s : Sys Task) (h : History Task)
    (hns : noSubmitAfterDestruct tr = true) (_hnf : noFail tr = true)
    (hrun : exec (init W) tr = some (s, h)) :
    ((∃ j : Nat, s.workers[j]? = some WorkerState.Terminated) → s.pool.tasks = []) ∧
    ((∀ x ∈ s.workers, x = WorkerState.Terminated) →
      s.pool.tasks = [] ∧ h.dequeued = h.submitted) := by
  have h0 : DrainInv (Sys.fresh W : Sys Task) := by
    intro ⟨j, hj⟩
    simp only [Sys.fresh, spawn_eq, List.nil_append] at hj
    have hmem := List.getElem?_mem hj
    simp at hmem
  have hinit : (Sys.fresh W : Sys Task).pool.isClosed = true →
      tr.all (fun l => !l.isSubmit) = true := by
    intro hc
    simp [Sys.fresh, Pool.fresh] at hc
  have hinv : DrainInv s := drainInv_exec tr (Sys.fresh W) History.empty s h h0 hns hinit hrun
  have hfifo : FifoInv s h := fifoInv_reachable W tr s h hrun
  have hlen : s.workers.length = W := by
    rw [exec_workers_length tr (Sys.fresh W) History.empty s h hrun]
    simp [Sys.fresh, spawn_eq]
  refine ⟨fun hex => (hinv hex).1, ?_⟩
  intro hall
  have hpos : 0 < s.workers.length := by omega
  have hex : ∃ j : Nat, s.workers[j]? = some WorkerState.Terminated := by
    refine ⟨0, ?_⟩
    rw [List.getElem?_eq_getElem hpos]
    exact congrArg some (hall _ (List.getElem_mem _))
  have hq := (hinv hex).1
  refine ⟨hq, ?_⟩
  unfold FifoInv at hfifo
  rw [hq, List.append_nil] at hfifo
  exact hfifo

/-- Witness for C2: one worker, two tasks submitted before the destructor; the worker
leaves its loop only after both have been dequeued. -/
theorem shutdown_drains_queue_witness :
    1 ≤ 1 ∧
    noSubmitAfterDestruct ([Label.submit 1 0, Label.submit 2 0, Label.destruct, Label.check 0,
      Label.finish 0, Label.check 0, Label.finish 0, Label.check 0] : List (Label Nat)) = true ∧
    noFail ([Label.submit 1 0, Label.submit 2 0, Label.destruct, Label.check 0,
      Label.finish 0, Label.check 0, Label.finish 0, Label.check 0] : List (Label Nat)) = true ∧
    exec (init 1 : Sys Nat × History Nat)
      [Label.submit 1 0, Label.submit 2 0, Label.destruct, Label.check 0,
       Label.finish 0, Label.check 0, Label.finish 0, Label.check 0] =
      some ({ pool := { isClosed := true, tasks := [] }
              workers := [WorkerState.Terminated]
              aborted := false },
            { submitted := [1, 2], dequeued := [1, 2], completed := [1, 2] }) ∧
    (([] : List Nat) = [] ∧ [1, 2] = [1, 2]) :=
  ⟨by decide, by decide, by decide, by decide,
   (shutdown_drains_queue 1 (by decide)
     [Label.submit 1 0, Label.submit 2 0, Label.destruct, Label.check 0,
      Label.finish 0, Label.check 0, Label.finish 0, Label.check 0]
     { pool := { isClosed := true, tasks := [] }
       workers := [WorkerState.Terminated]
       aborted := false }
     { submitted := [1, 2], dequeued := [1, 2], completed := [1, 2] }
     (by decide) (by decide) (by decide)).2 (by decide)⟩

/-! ## A single worker executes in submission order -/

theorem singleton_getElem? {α : Type} {w x : α} {i : Nat} (h : [w][i]? = some x) :
    i = 0 ∧ x = w := by
  cases i with
  | zero => simp at h; exact ⟨rfl, h.symm⟩
  | succ n => simp at h

theorem singleInv_step (s : Sys Task) (h : History Task) (l : Label Task) (s' : Sys Task)
    (h' : History Task) (hinv : SingleInv s h) (hstep : stepH (s, h) l = some (s', h')) :
    SingleInv s' h' := by
  obtain ⟨_, hE⟩ := stepH_inv hstep
  clear hstep
  cases l <;> simp only [EffectH] at hE
  case submit task pick =>
    obtain ⟨e1, e2⟩ := hE
    subst e1; subst e2
    rcases hinv with ⟨t, hw, hd⟩ | ⟨w, hw, hne, hd⟩
    · left
      refine ⟨t, ?_, hd⟩
      rcases notify_one_spec s.workers pick with ⟨h1, _⟩ | ⟨i, h1, _⟩
      · show notify_one s.workers pick = _
        rw [h1, hw]
      · rw [hw] at h1
        have := (singleton_getElem? h1).2
        cases this
    · right
      rcases notify_one_spec s.workers pick with ⟨h1, _⟩ | ⟨i, h1, h2⟩
      · exact ⟨w, (by show notify_one s.workers pick = _; rw [h1, hw]), hne, hd⟩
      · rw [hw] at h1
        obtain ⟨hi, _⟩ := singleton_getElem? h1
        subst hi
        refine ⟨WorkerState.Checking, ?_, ?_, hd⟩
        · show notify_one s.workers pick = _
          rw [h2, hw]; rfl
        intro t ht; cases ht
  case destruct =>
    obtain ⟨e1, e2⟩ := hE
    subst e1; subst e2
    rcases hinv with ⟨t, hw, hd⟩ | ⟨w, hw, hne, hd⟩
    · left; exact ⟨t, by simp [Sys.close, notify_all, hw, wakeUp], hd⟩
    · right
      refine ⟨wakeUp w, by simp [Sys.close, notify_all, hw], ?_, hd⟩
      intro t ht
      cases w <;> simp [wakeUp] at ht
      exact hne t (by rw [ht])
  case check i =>
    obtain ⟨hi, hE⟩ := hE
    have hchk : i = 0 ∧ s.workers = [WorkerState.Checking] ∧ h.dequeued = h.completed := by
      rcases hinv with ⟨t, hw, _⟩ | ⟨w, hw, _, hd⟩
      · rw [hw] at hi
        have := (singleton_getElem? hi).2
        cases this
      · rw [hw] at hi
        obtain ⟨h0, hx⟩ := singleton_getElem? hi
        exact ⟨h0, by rw [hw, ← hx], hd⟩
    obtain ⟨h0, hw, hd⟩ := hchk
    subst h0
    rcases hE with ⟨task, rest, _, e1, e2⟩ | ⟨_, _, e1, e2⟩ | ⟨_, _, e1, e2⟩
    · subst e1; subst e2
      left; exact ⟨task, by simp [hw], by simp [hd]⟩
    · subst e1; subst e2
      right
      exact ⟨WorkerState.Terminated, by simp [hw], fun t ht => (by cases ht), hd⟩
    · subst e1; subst e2
      right
      exact ⟨WorkerState.Waiting, by simp [hw], fun t ht => (by cases ht), hd⟩
  case finish i =>
    obtain ⟨task, hi, e1, e2⟩ := hE
    subst e1; subst e2
    rcases hinv with ⟨t, hw, hd⟩ | ⟨w, hw, hne, _⟩
    · rw [hw] at hi
      obtain ⟨h0, hx⟩ := singleton_getElem? hi
      subst h0
      cases hx
      right
      exact ⟨WorkerState.Checking, by simp [hw], fun t ht => (by cases ht), hd⟩
    · rw [hw] at hi
      exact absurd (singleton_getElem? hi).2.symm (hne task)
  case fail i =>
    obtain ⟨task, _, e1, e2⟩ := hE
    subst e1; subst e2
    exact hinv
  case wake i =>
    obtain ⟨hi, e1, e2⟩ := hE
    subst e1; subst e2
    rcases hinv with ⟨t, hw, _⟩ | ⟨w, hw, _, hd⟩
    · rw [hw] at hi
      have := (singleton_getElem? hi).2
      cases this
    · rw [hw] at hi
      obtain ⟨h0, _⟩ := singleton_getElem? hi
      subst h0
      right
      exact ⟨WorkerState.Checking, by simp [hw], fun t ht => (by cases ht), hd⟩

/-- An action changes the dequeue history only if it is a worker's test at the loop
head, taken while that worker is at `Checking`. -/
theorem dequeue_only_by_check {s s' : Sys Task} {h h' : History Task} {l : Label Task}
    (hstep : stepH (s, h) l = some (s', h')) (hne : h'.dequeued ≠ h.dequeued) :
    ∃ i task, l = Label.check i ∧ s.workers[i]? = some WorkerState.Checking ∧
      s.pool.tasks.head? = some task ∧ h'.dequeued = h.dequeued ++ [task] := by
  obtain ⟨_, hE⟩ := stepH_inv hstep
  clear hstep
  cases l <;> simp only [EffectH] at hE
  case submit task pick => exact absurd (by rw [hE.2]) hne
  case destruct => exact absurd (by rw [hE.2]) hne
  case check i =>
    obtain ⟨hi, hE⟩ := hE
    rcases hE with ⟨task, rest, hq, _, e2⟩ | ⟨_, _, _, e2⟩ | ⟨_, _, _, e2⟩
    · exact ⟨i, task, rfl, hi, by simp [hq], by rw [e2]⟩
    · exact absurd (by rw [e2]) hne
    · exact absurd (by rw [e2]) hne
  case finish i =>
    obtain ⟨task, _, _, e2⟩ := hE
    exact absurd (by rw [e2]) hne
  case fail i =>
    obtain ⟨task, _, _, e2⟩ := hE
    exact absurd (by rw [e2]) hne
  case wake i =>
    obtain ⟨_, _, e2⟩ := hE
    exact absurd (by rw [e2]) hne

/-- C4: a pool with exactly one worker executes tasks in submission order.  In every
reachable state the sequence of tasks the worker has started executing is a prefix of
the submission sequence and the sequence of completed tasks is a prefix of the started
ones; and whenever an action dequeues a task, it is the front of the queue and every
task dequeued before has already run to completion. -/
theorem single_worker_order (tr : List (Label Task)) (s : Sys Task) (h : History Task)
    (hrun : exec (init 1) tr = some (s, h)) :
    h.dequeued <+: h.submitted ∧
    h.completed <+: h.dequeued ∧
    (∀ (l : Label Task) (s' : Sys Task) (h' : History Task),
      stepH (s, h) l = some (s', h') → h'.dequeued ≠ h.dequeued →
      h.completed = h.dequeued ∧
      ∃ task, s.pool.tasks.head? = some task ∧ h'.dequeued = h.dequeued ++ [task]) := by
  have hfifo : FifoInv s h := fifoInv_reachable 1 tr s h hrun
  have h0 : SingleInv (Sys.fresh 1 : Sys Task) History.empty := by
    right
    exact ⟨WorkerState.Checking, by simp [Sys.fresh, spawn], fun t ht => (by cases ht),
      by simp [History.empty]⟩
  have hsingle : SingleInv s h :=
    exec_induct SingleInv singleInv_step tr (Sys.fresh 1) History.empty s h h0 hrun
  refine ⟨⟨s.pool.tasks, hfifo⟩, ?_, ?_⟩
  · rcases hsingle with ⟨t, _, hd⟩ | ⟨w, _, _, hd⟩
    · exact ⟨[t], hd.symm⟩
    · rw [hd]
  · intro l s' h' hstep hne
    obtain ⟨i, task, _, hi, hhead, hdeq⟩ := dequeue_only_by_check hstep hne
    refine ⟨?_, task, hhead, hdeq⟩
    rcases hsingle with ⟨t, hw, _⟩ | ⟨w, _, _, hd⟩
    · rw [hw] at hi
      have := (singleton_getElem? hi).2
      cases this
    · exact hd.symm

/-- Witness for C4: one worker, tasks 10 and 20 submitted in that order; 10 has
completed and 20 is being executed. -/
theorem single_worker_order_witness :
    exec (init 1 : Sys Nat × History Nat)
      [Label.submit 10 0, Label.submit 20 0, Label.check 0, Label.finish 0, Label.check 0] =
      some ({ pool := { isClosed := false, tasks := [] }
              workers := [WorkerState.Executing 20]
              aborted := false },
            { submitted := [10, 20], dequeued := [10, 20], completed := [10] }) ∧
    [10, 20] <+: [10, 20] ∧ [10] <+: [10, 20] :=
  ⟨by decide,
   (single_worker_order
     [Label.submit 10 0, Label.submit 20 0, Label.check 0, Label.finish 0, Label.check 0]
     { pool := { isClosed := false, tasks := [] }
       workers := [WorkerState.Executing 20]
       aborted := false }
     { submitted := [10, 20], dequeued := [10, 20], completed := [10] } (by decide)).1,
   (single_worker_order
     [Label.submit 10 0, Label.submit 20 0, Label.check 0, Label.finish 0, Label.check 0]
     { pool := { isClosed := false, tasks := [] }
       workers := [WorkerState.Executing 20]
       aborted := false }
     { submitted := [10, 20], dequeued := [10, 20], completed := [10] } (by decide)).2.1⟩

/-! ## Task failure -/

theorem step_aborted (s : Sys Task) (l : Label Task) (hab : s.aborted = true) :
    step s l = none := by
  simp [step, hab]

theorem exec_aborted (tr : List (Label Task)) (s : Sys Task) (h : History Task)
    (s' : Sys Task) (h' : History Task) (hab : s.aborted = true)
    (hrun : exec (s, h) tr = some (s', h')) : tr = [] ∧ s' = s ∧ h' = h := by
  cases tr with
  | nil =>
    simp only [exec, Option.some.injEq, Prod.mk.injEq] at hrun
    exact ⟨rfl, hrun.1.symm, hrun.2.symm⟩
  | cons l ls =>
    simp [exec, stepH, step_aborted s l hab] at hrun

/-- C6 (as amended): a task failure is not caught by the pool.  When the task a worker
is executing throws, the exception leaves the thread function and the process is
terminated: the failure itself changes neither the queue, nor `isClosed`, nor the
recorded state of any worker (the failing worker does not reach Terminated through
the loop exit), and afterwards no action of the system is enabled, so no worker, the
failing one or any other, dequeues again. -/
theorem task_failure_aborts (s : Sys Task) (i : Nat) (task : Task)
    (hrun : s.aborted = false) (hi : s.workers[i]? = some (WorkerState.Executing task)) :
    ∃ s' : Sys Task,
      step s (Label.fail i) = some s' ∧
      s'.pool = s.pool ∧ s'.workers = s.workers ∧ s'.aborted = true ∧
      (∀ l : Label Task, step s' l = none) ∧
      (∀ (h : History Task) (tr : List (Label Task)) (s2 : Sys Task) (h2 : History Task),
        exec (s', h) tr = some (s2, h2) → tr = [] ∧ s2 = s' ∧ h2 = h) := by
  refine ⟨{ s with aborted := true }, ?_, rfl, rfl, rfl, ?_, ?_⟩
  · simp [step, hrun, hi]
  · intro l
    exact step_aborted _ l rfl
  · intro h tr s2 h2 hex
    exact exec_aborted tr _ h s2 h2 rfl hex

/-- Witness for C6 (as amended): worker 0 of two fails on task 1 while task 2 is
queued. -/
theorem task_failure_aborts_witness :
    ∃ s' : Sys Nat,
      step { pool := { isClosed := false, tasks := [2] }
             workers := [WorkerState.Executing 1, WorkerState.Checking]
             aborted := false } (Label.fail 0) = some s' ∧
      s'.pool = { isClosed := false, tasks := [2] } ∧
      s'.workers = [WorkerState.Executing 1, WorkerState.Checking] ∧
      s'.aborted = true :=
  let ⟨s', h1, h2, h3, h4, _⟩ := task_failure_aborts
    ({ pool := { isClosed := false, tasks := [2] }
       workers := [WorkerState.Executing 1, WorkerState.Checking]
       aborted := false } : Sys Nat) 0 1 (by decide) (by decide)
  ⟨s', h1, h2, h3, h4⟩

/-- Counterexample to C6 as stated: in a pool with two workers, worker 0 fails on
task 1 while task 2 is queued and worker 1 is at the loop head.  Worker 0 does not
become Terminated, and worker 1 does not keep dequeuing: its Checking step is no
longer enabled (no action is), and task 2 stays in the queue. -/
theorem task_failure_not_isolated :
    exec (init 2 : Sys Nat × History Nat)
      [Label.submit 1 0, Label.check 0, Label.submit 2 0, Label.fail 0] =
      some ({ pool := { isClosed := false, tasks := [2] }
              workers := [WorkerState.Executing 1, WorkerState.Checking]
              aborted := true },
            { submitted := [1, 2], dequeued := [1], completed := [] }) ∧
    step ({ pool := { isClosed := false, tasks := [2] }
            workers := [WorkerState.Executing 1, WorkerState.Checking]
            aborted := true } : Sys Nat) (Label.check 1) = none ∧
    (∀ l : Label Nat,
      step ({ pool := { isClosed := false, tasks := [2] }
              workers := [WorkerState.Executing 1, WorkerState.Checking]
              aborted := true } : Sys Nat) l = none) :=
  ⟨by decide, by decide, fun l => step_aborted _ l rfl⟩

/-! ## Submission after shutdown -/

/-- Witness for C10: no pool for zero threads; three workers at Checking for three. -/
theorem construct_spec_witness :
    ThreadPool.construct 0 ([] : World Nat) = none ∧
    ∃ s : Sys Nat,
      ThreadPool.construct 3 ([] : World Nat) = some ({ pool_ := some 0 }, [] ++ [s]) ∧
      s.workers =
        [WorkerState.Checking, WorkerState.Checking, WorkerState.Checking] :=
  ⟨(construct_spec 0 ([] : World Nat)).1 rfl,
   (let ⟨s, h1, _, _, _, _, _, _, h2⟩ := (construct_spec 3 ([] : World Nat)).2 (by decide)
    ⟨s, h1, h2⟩)⟩

/-- Witness for C9: destroying the owning handle of a pool with queued work, and
destroying a moved-from handle. -/
theorem destructor_spec_witness :
    (∃ s' : Sys Nat,
      ThreadPool.destructor { pool_ := some 0 }
        ([{ pool := { isClosed := false, tasks := [1, 2] }
            workers := [WorkerState.Waiting, WorkerState.Executing 0]
            aborted := false }] : World Nat) =
        ([{ pool := { isClosed := false, tasks := [1, 2] }
            workers := [WorkerState.Waiting, WorkerState.Executing 0]
            aborted := false }] : World Nat).set 0 s' ∧
      s'.pool.isClosed = true ∧ s'.pool.tasks = [1, 2]) ∧
    ThreadPool.destructor (ThreadPool.move { pool_ := some 0 }).2
      ([{ pool := { isClosed := false, tasks := [1, 2] }
          workers := [WorkerState.Waiting, WorkerState.Executing 0]
          aborted := false }] : World Nat) =
      [{ pool := { isClosed := false, tasks := [1, 2] }
         workers := [WorkerState.Waiting, WorkerState.Executing 0]
         aborted := false }] :=
  ⟨(let ⟨s', h1, h2, h3, _⟩ := (destructor_spec { pool_ := some 0 }
      ([{ pool := { isClosed := false, tasks := [1, 2] }
          workers := [WorkerState.Waiting, WorkerState.Executing 0]
          aborted := false }] : World Nat)).1 0
      { pool := { isClosed := false, tasks := [1, 2] }
        workers := [WorkerState.Waiting, WorkerState.Executing 0]
        aborted := false } rfl rfl
    ⟨s', h1, h2, h3⟩),
   (destructor_spec { pool_ := some 0 }
      ([{ pool := { isClosed := false, tasks := [1, 2] }
          workers := [WorkerState.Waiting, WorkerState.Executing 0]
          aborted := false }] : World Nat)).2.2.2.2.2.2⟩

end ThreadPoolModel
